import Mathlib

/-!
Verification of the multi-agent committee decision loop of an LLM-driven
beta-testing framework.

The development shallowly embeds the decision-and-control core of the
repository:

* `app/schemas.py`       — the `Action` and `Persona` data contracts;
* `app/validators.py`    — `VALID_TYPES` and `validate_action`;
* `app/multi_agent_committee.py` — the three-round committee protocol
  (`_round1_independent`, `_round2_discussion`, `_round3_consensus`, `decide`);
* `app/multi_agent_runner.py`    — the per-turn orchestration loop
  (`run_multi_agent_session`): guardrail rewrites, loop detection,
  validation, execution, turn logging and termination.

External collaborators (LLM agents, the browser, persistent storage) are
modelled as oracles: per-round/per-turn inputs supplied as function
arguments.  Machine floats in the source carry only exact decimal constants
(0.8, 0.85, 0.9) and are modelled as rationals.  Python dicts whose keys are
inserted in a deterministic order are modelled as insertion-ordered
association lists.
-/

namespace BetaTest

/-- `needle.isSubList hay`: `needle` occurs as a contiguous sublist of
`hay`. -/
def isSubList (needle : List Char) : List Char → Bool
  | [] => needle.isEmpty
  | c :: rest => needle.isPrefixOf (c :: rest) || isSubList needle rest

/-- Python `needle in haystack` on strings (substring containment). -/
def strIn (needle hay : String) : Bool :=
  isSubList needle.data hay.data

/-- Python `d.get(key, "")` on a string-valued dict modelled as an
association list. -/
def lookupD (d : List (String × String)) (k : String) : String :=
  match d.lookup k with
  | some v => v
  | none => ""

/-- Python `l[-n:]`: the last `n` elements of a list (the whole list when it
is shorter). -/
def lastN (n : Nat) (l : List α) : List α :=
  l.drop (l.length - n)

/-- `app/schemas.py::Action`.  The pydantic model constrains `type` with a
`Literal[...]`; here `type` is a `String` together with the wellformedness
predicate `ActionWf` below, so that the validators (which treat the field as
a plain string) can also be stated on ill-typed values.  `payload` is
`Optional[Dict[str, Any]]`; every payload value the core reads is a string,
so values are modelled as strings. -/
structure Action where
  type : String
  target : String
  payload : Option (List (String × String))
deriving DecidableEq, Repr

/-- The eight admissible `type` literals of `app/schemas.py::Action`, in
source order. -/
def actionTypeLits : List String :=
  ["tap", "type", "scroll", "navigate", "upload", "report", "click", "fill"]

/-- An action constructible through the pydantic schema: its `type` is one of
the `Literal` alternatives. -/
def ActionWf (a : Action) : Prop :=
  a.type ∈ actionTypeLits

instance (a : Action) : Decidable (ActionWf a) := by
  unfold ActionWf; infer_instance

/-- `app/schemas.py::Persona` (only the fields the verified core touches). -/
structure Persona where
  name : String
  goals : List String
deriving DecidableEq, Repr

/-- `app/validators.py::VALID_TYPES` (a Python set literal; modelled as a
list, membership being all the source uses). -/
def VALID_TYPES : List String :=
  ["tap", "type", "scroll", "navigate", "upload", "report", "click", "fill"]

/-- `app/validators.py::validate_action`.  The content-based safety scanner
`_check_safety` (a battery of regular-expression searches) is passed in as
the function `checkSafety`; every theorem below quantifies over it, so the
results hold in particular for the concrete regex scanner.  The `persona`
argument is accepted and ignored, exactly as in the source (the goal
alignment check was removed there).  Returns `(passed, reasons,
safety_reasons)`. -/
def validate_action (checkSafety : Action → List String) (a : Action)
    (_persona : Persona) (disable_safety_checks : Bool) :
    Bool × List String × List String :=
  let reasons1 : List String :=
    if a.type ∈ VALID_TYPES then [] else ["invalid_type:" ++ a.type]
  let reasons2 : List String :=
    reasons1 ++ (if a.target = "" then ["missing_target"] else [])
  let safety_reasons : List String :=
    if disable_safety_checks then [] else checkSafety a
  let reasons := reasons2 ++ safety_reasons
  (reasons.isEmpty, reasons, safety_reasons)

/-- C10: with safety checks disabled (as the runner does whenever the
scenario is a security test), `validate_action` returns an empty
`safety_reasons` list and passes exactly when the action type is in
`VALID_TYPES` and the target is non-empty, for every safety scanner, every
persona, and every action — in particular regardless of injection-like
content in the target or payload. -/
theorem c10_security_mode_validation (checkSafety : Action → List String)
    (a : Action) (p : Persona) :
    (validate_action checkSafety a p true).2.2 = [] ∧
    ((validate_action checkSafety a p true).1 = true ↔
      (a.type ∈ VALID_TYPES ∧ a.target ≠ "")) := by
  unfold validate_action
  by_cases ht : a.type ∈ VALID_TYPES <;>
    by_cases hg : a.target = "" <;>
    simp [ht, hg]

/-- C9 counterexample: the claim says the set of valid action types is
exactly the seven-element enum navigate, click, fill, scroll, tap, upload,
report.  The code admits an eighth type, the literal string made of the four
characters t y p e: it is a member of `VALID_TYPES` (and of the schema
`Literal`), it lies outside the seven-element enum, and an action with that
type passes validation. -/
theorem c9_counterexample :
    "type" ∈ VALID_TYPES ∧
    "type" ∉ (["navigate", "click", "fill", "scroll", "tap", "upload",
               "report"] : List String) ∧
    (validate_action (fun _ => []) ⟨"type", "#q", none⟩ ⟨"tester", []⟩
        true).1 = true := by
  refine ⟨by decide, by decide, by decide⟩

/-- C9 (amended): the set of valid action types is exactly the eight-element
closed enum of `app/schemas.py` (tap, type, scroll, navigate, upload,
report, click, fill) — the validator set and the schema literals coincide —
and for every action whose type lies outside this enum, validation fails
(`passed = false`) with an `invalid_type` reason, for every safety scanner,
persona and safety-disable flag, rather than crashing. -/
theorem c9_amended_closed_enum :
    VALID_TYPES = actionTypeLits ∧
    (∀ (checkSafety : Action → List String) (a : Action) (p : Persona)
        (d : Bool), a.type ∉ VALID_TYPES →
      (validate_action checkSafety a p d).1 = false ∧
      ("invalid_type:" ++ a.type) ∈ (validate_action checkSafety a p d).2.1) := by
  refine ⟨rfl, ?_⟩
  intro checkSafety a p d ht
  unfold validate_action
  simp [ht]

/-- Witness for `c9_amended_closed_enum`: an action of type hover is outside
the enum, validation fails on it and reports the invalid type. -/
theorem c9_amended_closed_enum_witness :
    (validate_action (fun _ => []) ⟨"hover", "#b", none⟩ ⟨"tester", []⟩
        false).1 = false ∧
    ("invalid_type:" ++ "hover") ∈
      (validate_action (fun _ => []) ⟨"hover", "#b", none⟩ ⟨"tester", []⟩
        false).2.1 :=
  c9_amended_closed_enum.2 (fun _ => []) ⟨"hover", "#b", none⟩ ⟨"tester", []⟩
    false (by decide)

/-- `app/multi_agent_committee.py::AgentProposal`: the proposed action of one
agent with a confidence score and free-text reasoning. -/
structure AgentProposal where
  agent_id : Nat
  action : Action
  confidence : ℚ
  reasoning : String
deriving DecidableEq, Repr

/-- The grouping key of `_round3_consensus`:
`f"{proposal.action.type}::{proposal.action.target}"`. -/
def voteKey (a : Action) : String :=
  a.type ++ "::" ++ a.target

/-- One step of building the `action_votes` dict of `_round3_consensus`: if
the key is already registered the proposal is appended to its group,
otherwise a fresh singleton group is registered at the end (Python dicts
preserve insertion order). -/
def addVote (acc : List (String × List AgentProposal)) (p : AgentProposal) :
    List (String × List AgentProposal) :=
  if voteKey p.action ∈ acc.map Prod.fst then
    acc.map (fun e => (e.1, if e.1 = voteKey p.action then e.2 ++ [p] else e.2))
  else
    acc ++ [(voteKey p.action, [p])]

/-- The `action_votes` dict of `_round3_consensus`: proposals grouped by
`voteKey`, groups listed in order of first occurrence. -/
def groupProps (props : List AgentProposal) :
    List (String × List AgentProposal) :=
  props.foldl addVote []

/-- Sum of the member confidences of a group
(`sum(p.confidence for p in voters)`). -/
def sumConf (g : List AgentProposal) : ℚ :=
  (g.map (·.confidence)).sum

/-- The `vote_scores` dict of `_round3_consensus`: each group scored by its
summed confidence, in group registration order. -/
def groupScores (props : List AgentProposal) : List (String × ℚ) :=
  (groupProps props).map (fun e => (e.1, sumConf e.2))

/-- Python `max(vote_scores, key=vote_scores.get)` over an insertion-ordered
dict: the first entry attaining the maximal score (a later entry replaces the
current best only when strictly greater). -/
def argmaxFirst : List (String × ℚ) → Option (String × ℚ)
  | [] => none
  | (k, s) :: rest =>
    match argmaxFirst rest with
    | none => some (k, s)
    | some (k2, s2) => if s < s2 then some (k2, s2) else some (k, s)

/-- The per-agent confidence map of `_round3_consensus`
(`{f"agent_{p.agent_id}": p.confidence for p in proposals}`). -/
def confScores (props : List AgentProposal) : List (String × ℚ) :=
  props.map (fun p => ("agent_" ++ toString p.agent_id, p.confidence))

/-- `app/multi_agent_committee.py::_round3_consensus`: group the proposals,
score each group by summed confidence, pick the first group with the
strictly highest score, return the action of its first proposal together with the
confidence map extended by `consensus_strength` (winning score divided by
the number of proposals).  Returns `none` exactly when the proposal list is
empty, where the `max` call in the source raises `ValueError`. -/
def round3_consensus (props : List AgentProposal) :
    Option (Action × List (String × ℚ)) :=
  match argmaxFirst (groupScores props) with
  | none => none
  | some (k, s) =>
    match (groupProps props).lookup k with
    | some (p :: _) =>
      some (p.action,
        confScores props ++ [("consensus_strength", s / (props.length : ℚ))])
    | _ => none

/-- `app/multi_agent_committee.py::_round1_independent`.  Each agent is an
external LLM call; its outcome for this round is supplied as an oracle:
`none` models a raised exception (timeout, malformed output), `some a` a
returned action.  Failed agents are skipped; successful ones get the default
confidence 0.8 and `agent_id = i + 1` for position `i`.  (Model names, drawn
from external configuration, are omitted from the reasoning strings.) -/
def round1_independent (results : List (Option Action)) : List AgentProposal :=
  results.enum.filterMap fun e =>
    e.2.map fun a =>
      ⟨e.1 + 1, a, 0.8, "Agent " ++ toString (e.1 + 1) ++ " independent analysis"⟩

/-- `app/multi_agent_committee.py::_round2_discussion`.  Round-2 agent
outcomes are again supplied as oracles.  For agent position `i` the source
compares its round-2 action against `round1_proposals[i]` — the proposal at
POSITION `i` of the surviving round-1 list, not the proposal of the same
agent — and assigns confidence 0.9 when unchanged, 0.85 when changed (a
missing position yields `original = None`, counted as unchanged). -/
def round2_discussion (results : List (Option Action))
    (round1_proposals : List AgentProposal) : List AgentProposal :=
  results.enum.filterMap fun e =>
    e.2.map fun a =>
      let changed : Bool :=
        match round1_proposals.get? e.1 with
        | some original =>
          original.action.type ≠ a.type || original.action.target ≠ a.target
        | none => false
      ⟨e.1 + 1, a, if changed then 0.85 else 0.9,
        "Agent " ++ toString (e.1 + 1) ++ " refined after discussion" ++
          (if changed then " (changed mind)" else " (confirmed original)")⟩

/-- `app/multi_agent_committee.py::MultiAgentCommittee.decide`, with the two
rounds of external LLM behaviour supplied as oracles (`r1`, `r2`: one entry
per agent, `none` = that agent raised).  Mirrors the control flow: round 1,
round 2 (which is attempted regardless of how many round-1 sources failed),
then the consensus vote; an empty round-3 proposal list makes the
`max` call in the source raise `ValueError`, modelled as `Except.error`.  Returns the consensus
action, all proposals of both rounds, and the confidence map. -/
def decide (r1 r2 : List (Option Action)) :
    Except String (Action × List AgentProposal × List (String × ℚ)) :=
  let p1 := round1_independent r1
  let p2 := round2_discussion r2 p1
  match round3_consensus p2 with
  | none => .error "max() arg is an empty sequence"
  | some (a, cs) => .ok (a, p1 ++ p2, cs)

lemma argmaxFirst_eq_none_iff (l : List (String × ℚ)) :
    argmaxFirst l = none ↔ l = [] := by
  cases l with
  | nil => simp [argmaxFirst]
  | cons a rest =>
    simp only [argmaxFirst]
    cases h2 : argmaxFirst rest with
    | none => simp
    | some y => by_cases h : a.2 < y.2 <;> simp [h]

/-- The first-maximum semantics of Python `max` over an ordered dict: the
result splits the list into a strictly smaller prefix and a no-larger
suffix. -/
lemma argmaxFirst_split :
    ∀ (l : List (String × ℚ)) (x : String × ℚ), argmaxFirst l = some x →
      ∃ l1 l2, l = l1 ++ x :: l2 ∧ (∀ e ∈ l1, e.2 < x.2) ∧
        (∀ e ∈ l2, e.2 ≤ x.2) := by
  intro l
  induction l with
  | nil => intro x h; simp [argmaxFirst] at h
  | cons a rest ih =>
    obtain ⟨ka, sa⟩ := a
    intro x h
    simp only [argmaxFirst] at h
    cases h2 : argmaxFirst rest with
    | none =>
      rw [h2] at h
      simp only [Option.some.injEq] at h
      have hrest : rest = [] := (argmaxFirst_eq_none_iff rest).mp h2
      subst h
      exact ⟨[], [], by simp [hrest], by simp, by simp⟩
    | some y =>
      obtain ⟨ky, sy⟩ := y
      rw [h2] at h
      by_cases hlt : sa < sy
      · simp only [if_pos hlt, Option.some.injEq] at h
        obtain ⟨r1, r2, hr, h1, h2'⟩ := ih (ky, sy) h2
        subst h
        refine ⟨(ka, sa) :: r1, r2, by simp [hr], ?_, h2'⟩
        intro e he
        rcases List.mem_cons.mp he with rfl | he'
        · exact hlt
        · exact h1 e he'
      · simp only [if_neg hlt, Option.some.injEq] at h
        obtain ⟨r1, r2, hr, h1, h2'⟩ := ih (ky, sy) h2
        subst h
        refine ⟨[], rest, by simp, by simp, ?_⟩
        intro e he
        have hya : sy ≤ sa := le_of_not_lt hlt
        rw [hr] at he
        rcases List.mem_append.mp he with he' | he'
        · exact le_trans (le_of_lt (h1 e he')) hya
        · rcases List.mem_cons.mp he' with rfl | he''
          · exact hya
          · exact le_trans (h2' e he'') hya

/-- Splitting a mapped list at a distinguished element. -/
lemma map_eq_append_cons {α β : Type} (f : α → β) :
    ∀ (l1 : List β) (l : List α) (x : β) (l2 : List β),
      l.map f = l1 ++ x :: l2 →
      ∃ m1 y m2, l = m1 ++ y :: m2 ∧ m1.map f = l1 ∧ f y = x ∧
        m2.map f = l2 := by
  intro l1
  induction l1 with
  | nil =>
    intro l x l2 h
    cases l with
    | nil => simp at h
    | cons a as =>
      simp only [List.map_cons, List.nil_append] at h
      exact ⟨[], a, as, by simp, rfl, (List.cons.injEq _ _ _ _ ▸ h).1,
        (List.cons.injEq _ _ _ _ ▸ h).2⟩
  | cons b bs ih =>
    intro l x l2 h
    cases l with
    | nil => simp at h
    | cons a as =>
      simp only [List.map_cons, List.cons_append, List.cons.injEq] at h
      obtain ⟨m1, y, m2, hl, hm1, hy, hm2⟩ := ih as x l2 h.2
      exact ⟨a :: m1, y, m2, by simp [hl], by simp [h.1, hm1], hy, hm2⟩

/-- Index of the first proposal carrying the given vote key. -/
def firstIdxKey (k : String) : List AgentProposal → Nat
  | [] => 0
  | q :: rest => if voteKey q.action = k then 0 else firstIdxKey k rest + 1

/-- The vote keys of a proposal list, in order. -/
def propKeys (pre : List AgentProposal) : List String :=
  pre.map (fun q => voteKey q.action)

lemma firstIdxKey_append_of_mem {k : String} {pre : List AgentProposal}
    (h : k ∈ propKeys pre) (l : List AgentProposal) :
    firstIdxKey k (pre ++ l) = firstIdxKey k pre := by
  induction pre with
  | nil => simp [propKeys] at h
  | cons q rest ih =>
    by_cases hq : voteKey q.action = k
    · simp [firstIdxKey, hq]
    · have h' : k ∈ propKeys rest := by
        simp only [propKeys, List.map_cons, List.mem_cons] at h
        rcases h with h | h
        · exact absurd h.symm hq
        · exact h
      simp [firstIdxKey, hq, ih h']

lemma firstIdxKey_lt_length {k : String} {pre : List AgentProposal}
    (h : k ∈ propKeys pre) : firstIdxKey k pre < pre.length := by
  induction pre with
  | nil => simp [propKeys] at h
  | cons q rest ih =>
    by_cases hq : voteKey q.action = k
    · simp [firstIdxKey, hq]
    · have h' : k ∈ propKeys rest := by
        simp only [propKeys, List.map_cons, List.mem_cons] at h
        rcases h with h | h
        · exact absurd h.symm hq
        · exact h
      simpa [firstIdxKey, hq] using ih h'

lemma firstIdxKey_append_self {k : String} {pre : List AgentProposal}
    {p : AgentProposal} (h : k ∉ propKeys pre) (hk : voteKey p.action = k) :
    firstIdxKey k (pre ++ [p]) = pre.length := by
  induction pre with
  | nil => simp [firstIdxKey, hk]
  | cons q rest ih =>
    have hq : voteKey q.action ≠ k := by
      intro he
      exact h (by simp [propKeys, he])
    have h' : k ∉ propKeys rest := by
      intro hm
      exact h (by simp [propKeys]; right; simpa [propKeys] using hm)
    simp [firstIdxKey, hq, ih h']

/-- Invariant of the `action_votes` dict after the proposals `pre` have been
inserted: each group is the filter of `pre` by its key, every key of `pre`
is registered, groups are non-empty, and groups are listed in strictly
increasing order of first occurrence. -/
def GroupInv (pre : List AgentProposal)
    (acc : List (String × List AgentProposal)) : Prop :=
  (∀ e ∈ acc, e.2 = pre.filter (fun q => voteKey q.action == e.1)) ∧
  (∀ q ∈ pre, voteKey q.action ∈ acc.map Prod.fst) ∧
  (∀ e ∈ acc, e.2 ≠ []) ∧
  List.Pairwise (fun x y => firstIdxKey x.1 pre < firstIdxKey y.1 pre) acc

lemma GroupInv.entry_key_mem {pre : List AgentProposal}
    {acc : List (String × List AgentProposal)} (h : GroupInv pre acc)
    {e : String × List AgentProposal} (he : e ∈ acc) : e.1 ∈ propKeys pre := by
  obtain ⟨hfil, _, hne, _⟩ := h
  obtain ⟨x, hx⟩ := List.exists_mem_of_ne_nil e.2 (hne e he)
  rw [hfil e he] at hx
  have := List.mem_filter.mp hx
  simp only [propKeys, List.mem_map]
  exact ⟨x, this.1, by simpa using this.2⟩

lemma addVote_inv {pre : List AgentProposal}
    {acc : List (String × List AgentProposal)} {p : AgentProposal}
    (h : GroupInv pre acc) : GroupInv (pre ++ [p]) (addVote acc p) := by
  have hkeys : ∀ e ∈ acc, e.1 ∈ propKeys pre := fun e he => h.entry_key_mem he
  obtain ⟨hfil, hcomp, hne, hord⟩ := h
  unfold addVote
  by_cases hmem : voteKey p.action ∈ acc.map Prod.fst
  · rw [if_pos hmem]
    refine ⟨?_, ?_, ?_, ?_⟩
    · intro e' he'
      obtain ⟨e, he, rfl⟩ := List.mem_map.mp he'
      simp only
      rw [List.filter_append]
      by_cases hk : e.1 = voteKey p.action
      · have hp : List.filter (fun q => voteKey q.action == e.1) [p] = [p] := by
          simp [List.filter, hk]
        rw [if_pos hk, hp, hfil e he]
      · have hp : List.filter (fun q => voteKey q.action == e.1) [p] = [] := by
          rw [List.filter_eq_nil_iff]
          intro q hq
          rcases List.mem_singleton.mp hq with rfl
          simpa using fun hc => hk hc.symm
        rw [if_neg hk, hp, hfil e he, List.append_nil]
    · intro q hq
      have hfst : (acc.map
          (fun e => (e.1, if e.1 = voteKey p.action then e.2 ++ [p] else e.2))).map
            Prod.fst = acc.map Prod.fst := by
        simp [List.map_map, Function.comp]
      rw [hfst]
      rcases List.mem_append.mp hq with hq' | hq'
      · exact hcomp q hq'
      · rcases List.mem_singleton.mp hq' with rfl
        exact hmem
    · intro e' he'
      obtain ⟨e, he, rfl⟩ := List.mem_map.mp he'
      simp only
      by_cases hk : e.1 = voteKey p.action
      · simp [if_pos hk]
      · rw [if_neg hk]
        exact hne e he
    · rw [List.pairwise_map]
      refine hord.imp_of_mem ?_
      intro a b ha hb hab
      simp only
      rw [firstIdxKey_append_of_mem (hkeys a ha), firstIdxKey_append_of_mem (hkeys b hb)]
      exact hab
  · rw [if_neg hmem]
    have hfresh : ∀ q ∈ pre, voteKey q.action ≠ voteKey p.action := by
      intro q hq hc
      exact hmem (hc ▸ hcomp q hq)
    refine ⟨?_, ?_, ?_, ?_⟩
    · intro e' he'
      rcases List.mem_append.mp he' with he | he
      · have hk : e'.1 ≠ voteKey p.action := by
          intro hc
          exact hmem (by
            rcases List.mem_map.mp ((List.mem_map.mpr ⟨e', he, rfl⟩ :
              e'.1 ∈ acc.map Prod.fst)) with _
            exact hc ▸ List.mem_map.mpr ⟨e', he, rfl⟩)
        have hp : List.filter (fun q => voteKey q.action == e'.1) [p] = [] := by
          rw [List.filter_eq_nil_iff]
          intro q hq
          rcases List.mem_singleton.mp hq with rfl
          simpa using fun hc => hk hc.symm
        rw [List.filter_append, hp, List.append_nil, hfil e' he]
      · rcases List.mem_singleton.mp he with rfl
        simp only
        rw [List.filter_append]
        have hp : List.filter (fun q => voteKey q.action == voteKey p.action) [p]
            = [p] := by simp [List.filter]
        have hpre : List.filter (fun q => voteKey q.action == voteKey p.action) pre
            = [] := by
          rw [List.filter_eq_nil_iff]
          intro q hq
          simpa using hfresh q hq
        rw [hp, hpre, List.nil_append]
    · intro q hq
      rw [List.map_append]
      rcases List.mem_append.mp hq with hq' | hq'
      · exact List.mem_append.mpr (Or.inl (hcomp q hq'))
      · rcases List.mem_singleton.mp hq' with rfl
        simp
    · intro e' he'
      rcases List.mem_append.mp he' with he | he
      · exact hne e' he
      · rcases List.mem_singleton.mp he with rfl
        simp
    · rw [List.pairwise_append]
      refine ⟨?_, by simp, ?_⟩
      · refine hord.imp_of_mem ?_
        intro a b ha hb hab
        rw [firstIdxKey_append_of_mem (hkeys a ha),
          firstIdxKey_append_of_mem (hkeys b hb)]
        exact hab
      · intro a ha b hb
        rcases List.mem_singleton.mp hb with rfl
        simp only
        rw [firstIdxKey_append_of_mem (hkeys a ha),
          firstIdxKey_append_self (fun hc => hmem ?_) rfl]
        · exact firstIdxKey_lt_length (hkeys a ha)
        · -- voteKey p.action ∈ propKeys pre → ∈ acc keys
          obtain ⟨q, hq, hq'⟩ := List.mem_map.mp hc
          exact hq' ▸ hcomp q hq

lemma foldl_addVote_inv :
    ∀ (props pre : List AgentProposal) (acc : List (String × List AgentProposal)),
      GroupInv pre acc → GroupInv (pre ++ props) (props.foldl addVote acc) := by
  intro props
  induction props with
  | nil => intro pre acc h; simpa using h
  | cons p ps ih =>
    intro pre acc h
    have h' := ih (pre ++ [p]) (addVote acc p) (addVote_inv h)
    simpa [List.append_assoc] using h'

lemma groupProps_inv (props : List AgentProposal) :
    GroupInv props (groupProps props) := by
  have h0 : GroupInv [] [] := ⟨by simp, by simp, by simp, List.Pairwise.nil⟩
  simpa using foldl_addVote_inv props [] [] h0

lemma groupProps_keys_nodup (props : List AgentProposal) :
    ((groupProps props).map Prod.fst).Nodup := by
  have hord := (groupProps_inv props).2.2.2
  exact List.Pairwise.map Prod.fst
    (fun a b hab he => absurd (he ▸ hab) (lt_irrefl _)) hord

lemma lookup_of_mem_nodup {l : List (String × List AgentProposal)}
    (hnd : (l.map Prod.fst).Nodup) {k : String} {v : List AgentProposal}
    (h : (k, v) ∈ l) : l.lookup k = some v := by
  induction l with
  | nil => simp at h
  | cons a rest ih =>
    obtain ⟨ka, va⟩ := a
    rw [List.map_cons, List.nodup_cons] at hnd
    rcases List.mem_cons.mp h with he | he
    · injection he with h1 h2
      subst h1; subst h2
      simp [List.lookup]
    · have hk : k ≠ ka := by
        intro hkk
        subst hkk
        exact hnd.1 (List.mem_map.mpr ⟨(k, v), he, rfl⟩)
      have hbeq : (k == ka) = false := by
        simpa using hk
      simp only [List.lookup, hbeq]
      exact ih hnd.2 he

lemma mem_groupScores {props : List AgentProposal} {k : String} {s : ℚ}
    (h : (k, s) ∈ groupScores props) :
    ∃ g, (k, g) ∈ groupProps props ∧ s = sumConf g := by
  obtain ⟨e, he, heq⟩ := List.mem_map.mp h
  injection heq with h1 h2
  exact ⟨e.2, by rw [← h1]; exact he, h2.symm⟩

/-- Structure of a successful consensus vote: for a non-empty proposal list,
`_round3_consensus` returns the first proposal of the group selected by
`argmaxFirst` over the group scores, and appends `consensus_strength` =
winning score / number of proposals to the confidence map. -/
lemma round3_consensus_spec (props : List AgentProposal) (hne : props ≠ []) :
    ∃ k s g p0 rest,
      argmaxFirst (groupScores props) = some (k, s) ∧
      (k, g) ∈ groupProps props ∧ g = p0 :: rest ∧
      g = props.filter (fun q => voteKey q.action == k) ∧
      s = sumConf g ∧
      round3_consensus props =
        some (p0.action,
          confScores props ++
            [("consensus_strength", s / (props.length : ℚ))]) := by
  have hpk : groupProps props ≠ [] := by
    obtain ⟨q, hq⟩ := List.exists_mem_of_ne_nil props hne
    have hmem := (groupProps_inv props).2.1 q hq
    intro h0
    rw [h0] at hmem
    simp at hmem
  have hsc : groupScores props ≠ [] := by
    simp only [groupScores, ne_eq, List.map_eq_nil_iff]
    exact hpk
  obtain ⟨x, hx⟩ : ∃ x, argmaxFirst (groupScores props) = some x := by
    cases hax : argmaxFirst (groupScores props) with
    | none => exact absurd ((argmaxFirst_eq_none_iff _).mp hax) hsc
    | some y => exact ⟨y, rfl⟩
  obtain ⟨k, s⟩ := x
  obtain ⟨l1, l2, hsplit, _, _⟩ := argmaxFirst_split _ _ hx
  have hmem : (k, s) ∈ groupScores props := by
    rw [hsplit]; simp
  obtain ⟨g, hg, hs⟩ := mem_groupScores hmem
  have hgfil := (groupProps_inv props).1 _ hg
  have hgne := (groupProps_inv props).2.2.1 _ hg
  obtain ⟨p0, rest, hcons⟩ : ∃ p0 rest, g = p0 :: rest := by
    cases g with
    | nil => exact absurd rfl hgne
    | cons p0 rest => exact ⟨p0, rest, rfl⟩
  have hlk : (groupProps props).lookup k = some g :=
    lookup_of_mem_nodup (groupProps_keys_nodup props) hg
  refine ⟨k, s, g, p0, rest, hx, hg, hcons, hgfil, hs, ?_⟩
  simp only [round3_consensus, hx, hlk, hcons]

/-- The four-proposal consensus scenario of the spec: three agents propose
click on add, one proposes navigate to the cart, all with confidence 0.8. -/
def fourAgentProps : List AgentProposal :=
  [⟨1, ⟨"click", "#add", none⟩, 0.8, "r1"⟩,
   ⟨2, ⟨"click", "#add", none⟩, 0.8, "r2"⟩,
   ⟨3, ⟨"navigate", "/cart", none⟩, 0.8, "r3"⟩,
   ⟨4, ⟨"click", "#add", none⟩, 0.8, "r4"⟩]

/-- C5: the reported consensus strength is the summed confidence of the
winning group divided by the number of round-2 proposals (the last entry of the
returned confidence map); and on the concrete scenario of four proposals
click #add, click #add, navigate to cart, click #add at confidence 0.8 each,
the winning key is click-#add with score 2.4 against 0.8, and the consensus
strength is 2.4/4 = 0.6. -/
theorem c5_consensus_strength :
    (∀ props : List AgentProposal, props ≠ [] →
      ∃ a cs k s, round3_consensus props = some (a, cs) ∧
        argmaxFirst (groupScores props) = some (k, s) ∧
        cs.getLast? = some ("consensus_strength", s / (props.length : ℚ))) ∧
    groupScores fourAgentProps =
      [("click::#add", 2.4), ("navigate::/cart", 0.8)] ∧
    round3_consensus fourAgentProps =
      some (⟨"click", "#add", none⟩,
        [("agent_1", 0.8), ("agent_2", 0.8), ("agent_3", 0.8), ("agent_4", 0.8),
         ("consensus_strength", 0.6)]) := by
  refine ⟨?_, ?_, ?_⟩
  · intro props hne
    obtain ⟨k, s, g, p0, rest, hx, hg, hcons, hgfil, hs, hr3⟩ :=
      round3_consensus_spec props hne
    refine ⟨p0.action, _, k, s, hr3, hx, ?_⟩
    rw [List.getLast?_concat]
  · simp [fourAgentProps, groupScores, groupProps, addVote, sumConf, voteKey]
    norm_num
  · simp [fourAgentProps, round3_consensus, groupScores, groupProps, addVote,
      sumConf, voteKey, argmaxFirst, confScores]
    norm_num
    decide

/-- Witness for `c5_consensus_strength`: its universally quantified part
applied to the concrete four-proposal scenario. -/
theorem c5_consensus_strength_witness :
    ∃ a cs k s, round3_consensus fourAgentProps = some (a, cs) ∧
      argmaxFirst (groupScores fourAgentProps) = some (k, s) ∧
      cs.getLast? =
        some ("consensus_strength", s / (fourAgentProps.length : ℚ)) :=
  c5_consensus_strength.1 fourAgentProps (by simp [fourAgentProps])

/-- C3 (failing input for the round-2 confidence rule): with three agents
where agent 1 fails in round 1, agents 2 and 3 propose click-#a and
click-#b, and in round 2 only agent 2 answers, repeating ITS OWN round-1
action click-#a.  The claim (and the spec) say this unchanged action gets
confidence 0.9; the code instead looks up `round1_proposals[1]` — the proposal
of agent 3, because the surviving round-1 list has shifted — classifies agent
2 as having changed its mind, and assigns 0.85. -/
theorem c3_round2_positional_comparison :
    round2_discussion [none, some ⟨"click", "#a", none⟩, none]
        (round1_independent
          [none, some ⟨"click", "#a", none⟩, some ⟨"click", "#b", none⟩]) =
      [⟨2, ⟨"click", "#a", none⟩, 0.85,
        "Agent 2 refined after discussion (changed mind)"⟩] := by
  simp [round2_discussion, round1_independent, List.enum, List.enumFrom]
  decide

lemma sep_inj :
    ∀ (l1 l2 m1 m2 : List Char), ':' ∉ l1 → ':' ∉ l2 →
      l1 ++ ':' :: ':' :: m1 = l2 ++ ':' :: ':' :: m2 → l1 = l2 ∧ m1 = m2 := by
  intro l1
  induction l1 with
  | nil =>
    intro l2 m1 m2 h1 h2 heq
    cases l2 with
    | nil =>
      simp only [List.nil_append, List.cons.injEq, true_and] at heq
      exact ⟨rfl, heq⟩
    | cons c l2' =>
      simp only [List.nil_append, List.cons_append, List.cons.injEq] at heq
      exact absurd (heq.1 ▸ List.mem_cons_self c l2') h2
  | cons c l1' ih =>
    intro l2 m1 m2 h1 h2 heq
    cases l2 with
    | nil =>
      simp only [List.cons_append, List.nil_append, List.cons.injEq] at heq
      exact absurd (heq.1 ▸ List.mem_cons_self c l1') h1
    | cons d l2' =>
      simp only [List.cons_append, List.cons.injEq] at heq
      have h1' : ':' ∉ l1' := fun hm => h1 (List.mem_cons_of_mem c hm)
      have h2' : ':' ∉ l2' := fun hm => h2 (List.mem_cons_of_mem d hm)
      obtain ⟨hl, hm⟩ := ih l2' m1 m2 h1' h2' heq.2
      exact ⟨by rw [heq.1, hl], hm⟩

lemma voteKey_data (a : Action) :
    (voteKey a).data = a.type.data ++ ':' :: ':' :: a.target.data := by
  simp [voteKey, String.data_append]

lemma wf_no_colon {a : Action} (h : ActionWf a) : ':' ∉ a.type.data := by
  unfold ActionWf actionTypeLits at h
  simp only [List.mem_cons, List.not_mem_nil, or_false] at h
  rcases h with h | h | h | h | h | h | h | h <;> rw [h] <;> decide

/-- For schema-constructible actions, the string key of the vote dict is
injective in the pair (type, target): the key types are drawn from the
closed enum and contain no colon. -/
lemma voteKey_inj {a b : Action} (ha : ActionWf a) (hb : ActionWf b) :
    voteKey a = voteKey b ↔ (a.type = b.type ∧ a.target = b.target) := by
  constructor
  · intro h
    have hd := congrArg String.data h
    rw [voteKey_data, voteKey_data] at hd
    obtain ⟨h1, h2⟩ := sep_inj _ _ _ _ (wf_no_colon ha) (wf_no_colon hb) hd
    exact ⟨String.ext h1, String.ext h2⟩
  · rintro ⟨h1, h2⟩
    simp [voteKey, h1, h2]

/-- Same (type, target) pair, as the code compares it in rounds 2 and 3. -/
def sameTT (x y : Action) : Bool :=
  x.type == y.type && x.target == y.target

/-- Index of the first proposal whose action has the given (type, target)
pair. -/
def firstIdxTT (act : Action) : List AgentProposal → Nat
  | [] => 0
  | q :: rest => if sameTT q.action act then 0 else firstIdxTT act rest + 1

lemma sameTT_eq_key {r act : Action} (hr : ActionWf r) (hact : ActionWf act) :
    sameTT r act = (voteKey r == voteKey act) := by
  by_cases h : voteKey r = voteKey act
  · obtain ⟨h1, h2⟩ := (voteKey_inj hr hact).mp h
    simp [sameTT, h1, h2, h]
  · have : ¬(r.type = act.type ∧ r.target = act.target) :=
      fun hc => h ((voteKey_inj hr hact).mpr hc)
    have hrhs : (voteKey r == voteKey act) = false := by simpa using h
    rcases not_and_or.mp this with hc | hc
    · have hlhs : (r.type == act.type) = false := by simpa using hc
      simp [sameTT, hlhs, hrhs]
    · have hlhs : (r.target == act.target) = false := by simpa using hc
      simp [sameTT, hlhs, hrhs]

lemma firstIdxTT_eq_key {act : Action} (hact : ActionWf act) :
    ∀ {props : List AgentProposal}, (∀ p ∈ props, ActionWf p.action) →
      firstIdxTT act props = firstIdxKey (voteKey act) props := by
  intro props
  induction props with
  | nil => intro _; rfl
  | cons q rest ih =>
    intro hwf
    have hq := hwf q (List.mem_cons_self q rest)
    have hkey := sameTT_eq_key hq hact
    by_cases h : sameTT q.action act = true
    · have : voteKey q.action = voteKey act := by
        rw [hkey] at h
        exact beq_iff_eq.mp h
      simp [firstIdxTT, firstIdxKey, h, this]
    · have : voteKey q.action ≠ voteKey act := by
        intro hc
        exact h (by rw [hkey]; exact beq_iff_eq.mpr hc)
      simp [firstIdxTT, firstIdxKey, h, this,
        ih (fun p hp => hwf p (List.mem_cons_of_mem q hp))]

lemma filter_sameTT_eq_key {act : Action} (hact : ActionWf act)
    {props : List AgentProposal} (hwf : ∀ p ∈ props, ActionWf p.action) :
    props.filter (fun r => sameTT r.action act) =
      props.filter (fun r => voteKey r.action == voteKey act) :=
  List.filter_congr (fun p hp => sameTT_eq_key (hwf p hp) hact)

/-- C1: for every non-empty proposal list of schema-constructible actions,
the consensus vote groups by (type, target), scores each group by the sum of
the member confidences, and the group of the chosen action strictly beats every
other group, or ties it and registered first (its first proposal appears
earlier in the input order).  The winner is computed by a function of the
ordered proposal list, hence deterministic. -/
theorem c1_consensus_vote_deterministic (props : List AgentProposal)
    (hne : props ≠ []) (hwf : ∀ p ∈ props, ActionWf p.action) :
    ∃ a cs, round3_consensus props = some (a, cs) ∧
      (∃ p0 ∈ props, p0.action = a) ∧
      ∀ q ∈ props, sameTT q.action a = false →
        (sumConf (props.filter (fun r => sameTT r.action q.action)) <
           sumConf (props.filter (fun r => sameTT r.action a)) ∨
         (sumConf (props.filter (fun r => sameTT r.action q.action)) =
            sumConf (props.filter (fun r => sameTT r.action a)) ∧
          firstIdxTT a props < firstIdxTT q.action props)) := by
  obtain ⟨k, s, g, p0, rest, hx, hg, hcons, hgfil, hs, hr3⟩ :=
    round3_consensus_spec props hne
  simp only [hcons] at hgfil
  have hp0 : p0 ∈ props ∧ (voteKey p0.action == k) = true := by
    have : p0 ∈ List.filter (fun q => voteKey q.action == k) props := by
      rw [← hgfil]; exact List.mem_cons_self p0 rest
    exact List.mem_filter.mp this
  have hka : voteKey p0.action = k := beq_iff_eq.mp hp0.2
  have hwa : ActionWf p0.action := hwf p0 hp0.1
  refine ⟨p0.action, _, hr3, ⟨p0, hp0.1, rfl⟩, ?_⟩
  intro q hq hne'
  have hwq : ActionWf q.action := hwf q hq
  have hkq : voteKey q.action ≠ k := by
    intro hc
    have := (voteKey_inj hwq hwa).mp (by rw [hc, hka])
    rw [sameTT, this.1, this.2] at hne'
    simp at hne'
  -- the sums in the statement, rewritten through the vote keys
  have hSa : sumConf (props.filter (fun r => sameTT r.action p0.action)) = s := by
    rw [filter_sameTT_eq_key hwa hwf, hka, ← hgfil, hs, hcons]
  have hgq : voteKey q.action ∈ (groupProps props).map Prod.fst :=
    (groupProps_inv props).2.1 q hq
  obtain ⟨eq', heq', hfst⟩ := List.mem_map.mp hgq
  obtain ⟨kq, gq⟩ := eq'
  simp only at hfst
  subst hfst
  have hgqfil := (groupProps_inv props).1 _ heq'
  simp only at hgqfil
  have hSq : sumConf (props.filter (fun r => sameTT r.action q.action)) =
      sumConf gq := by
    rw [filter_sameTT_eq_key hwq hwf, hgqfil]
  have hmemsc : (voteKey q.action, sumConf gq) ∈ groupScores props :=
    List.mem_map.mpr ⟨(voteKey q.action, gq), heq', rfl⟩
  obtain ⟨l1, l2, hsplit, hl1, hl2⟩ := argmaxFirst_split _ _ hx
  rw [hsplit] at hmemsc
  rcases List.mem_append.mp hmemsc with hin | hin
  · exact Or.inl (by rw [hSa, hSq]; exact hl1 _ hin)
  · rcases List.mem_cons.mp hin with heqk | hin2
    · exact absurd (congrArg Prod.fst heqk) hkq
    · have hle : sumConf gq ≤ s := hl2 _ hin2
      rcases lt_or_eq_of_le hle with hlt | heqs
      · exact Or.inl (by rw [hSa, hSq]; exact hlt)
      · refine Or.inr ⟨by rw [hSa, hSq, heqs], ?_⟩
        -- locate the groups decomposition underlying the score split
        obtain ⟨m1, y, m2, hgdec, hm1, hy, hm2⟩ :=
          map_eq_append_cons _ l1 (groupProps props) (k, s) l2 hsplit
        have hyk : y.1 = k := congrArg Prod.fst hy
        obtain ⟨e2, he2, hfe2⟩ : ∃ e2 ∈ m2,
            (e2.1, sumConf e2.2) = (voteKey q.action, sumConf gq) := by
          rw [← hm2] at hin2
          obtain ⟨e2, he2, hfe2⟩ := List.mem_map.mp hin2
          exact ⟨e2, he2, hfe2⟩
        have he2k : e2.1 = voteKey q.action := congrArg Prod.fst hfe2
        have hord := (groupProps_inv props).2.2.2
        rw [hgdec] at hord
        have hrel := ((List.pairwise_append.mp hord).2.1)
        have := (List.pairwise_cons.mp hrel).1 e2 he2
        rw [hyk, he2k] at this
        rw [firstIdxTT_eq_key hwa hwf, firstIdxTT_eq_key hwq hwf, hka]
        exact this

/-- Witness for `c1_consensus_vote_deterministic`: the theorem applied to
the concrete four-proposal scenario. -/
theorem c1_consensus_vote_deterministic_witness :
    ∃ a cs, round3_consensus fourAgentProps = some (a, cs) ∧
      (∃ p0 ∈ fourAgentProps, p0.action = a) ∧
      ∀ q ∈ fourAgentProps, sameTT q.action a = false →
        (sumConf (fourAgentProps.filter (fun r => sameTT r.action q.action)) <
           sumConf (fourAgentProps.filter (fun r => sameTT r.action a)) ∨
         (sumConf (fourAgentProps.filter (fun r => sameTT r.action q.action)) =
            sumConf (fourAgentProps.filter (fun r => sameTT r.action a)) ∧
          firstIdxTT a fourAgentProps < firstIdxTT q.action fourAgentProps)) :=
  c1_consensus_vote_deterministic fourAgentProps (by simp [fourAgentProps])
    (by intro p hp; fin_cases hp <;> decide)

/-- Python `s.startswith(p)`. -/
def strStarts (p s : String) : Bool :=
  p.data.isPrefixOf s.data

/-- One entry of the runner list `action_history` (payload stored as a
dict, `{}` when the action had none, exactly as the source stores
`action_payload`). -/
structure HistEntry where
  type : String
  target : String
  payload : List (String × String)
  turn : Nat
  success : Bool
deriving DecidableEq, Repr

/-- One `storage.log_turn` record, restricted to the fields the
specification talks about (turn number, action, success flag, latency,
safety pass, validator strings); screenshot paths, proposal dumps and page
state are presentation data and are not modelled. -/
structure LogEntry where
  turn : Nat
  action_type : String
  action_target : String
  success : Bool
  latency : ℚ
  safety_pass : Bool
  validators : List String
deriving DecidableEq, Repr

/-- The mutable per-session state of `run_multi_agent_session`: the bounded
action history, the failed-selector counters and the five guardrail flags.
(The `completed_criteria` and `security_tests_attempted` sets only feed the
observation text shown to the agents, which is oracle input here.) -/
structure SessState where
  action_history : List HistEntry
  failed_selectors : List (String × Nat)
  search_add_done : Bool
  min_filled : Bool
  max_filled : Bool
  filtered_add_done : Bool
  cart_visited : Bool
deriving DecidableEq, Repr

/-- Session state at the start of `run_multi_agent_session`. -/
def initState : SessState := ⟨[], [], false, false, false, false, false⟩

/-- The external events of one turn: the current page URL (base stripped),
the committee outcome (`none` models `committee.decide` raising), the
browser execution outcome (`none` models `browser.execute` raising, `some`
carries the new observation and the latency), and the page URL after
execution. -/
structure TurnInput where
  current_url : String
  committee : Option Action
  execResult : Option (String × ℚ)
  post_url : String

/-- The replacement actions the guardrails substitute. -/
def clickAddToCart : Action :=
  ⟨"click", ".add-to-cart", some [("selector", ".add-to-cart")]⟩

def clickGoToCart : Action :=
  ⟨"click", ".go-to-cart", some [("selector", ".go-to-cart")]⟩

/-- Guardrail 1 (runner lines 204-210): once `search_add_done` is set and
the current URL is a search view, any consensus whose target mentions
add-to-cart is replaced by navigation to /products. -/
def guard1 (s : SessState) (u : String) (a : Action) : Action :=
  if s.search_add_done && strIn "/search" u && strIn "add-to-cart" a.target then
    ⟨"navigate", "/products", none⟩
  else a

/-- Guardrail 2 (runner lines 213-217): once both filters are filled and the
filtered add has not happened, a new search (fill of the search input, or a
click of the search button) is replaced by clicking add-to-cart.  The two
rewrites are applied in sequence, the second examining the output of the
first, as in the source. -/
def guard2 (s : SessState) (a : Action) : Action :=
  if s.min_filled && s.max_filled && !s.filtered_add_done then
    let a1 :=
      if a.type == "fill" && strStarts "#searchInput" a.target then
        clickAddToCart
      else a
    if a1.type == "click" && strIn "search-button" a1.target then
      clickAddToCart
    else a1
  else a

/-- Guardrail 3 (runner lines 219-223): an add-to-cart click before both
filters are set is replaced by filling the first missing filter. -/
def guard3 (s : SessState) (a : Action) : Action :=
  if s.search_add_done && !(s.min_filled && s.max_filled) &&
      a.type == "click" && strIn "add-to-cart" a.target then
    if !s.min_filled then
      ⟨"fill", "#minPrice", some [("selector", "#minPrice"), ("value", "10")]⟩
    else if !s.max_filled then
      ⟨"fill", "#maxPrice", some [("selector", "#maxPrice"), ("value", "200")]⟩
    else a
  else a

/-- Guardrail 4 (runner lines 226-228): after the filtered add and before
the cart has been visited, anything that is not a click towards the cart is
replaced by clicking go-to-cart. -/
def guard4 (s : SessState) (a : Action) : Action :=
  if s.filtered_add_done && !s.cart_visited then
    if !(a.type == "click" && (strIn "go-to-cart" a.target || strIn "/cart" a.target)) then
      clickGoToCart
    else a
  else a

/-- The guardrail pipeline: the four rules in source order, each seeing the
output of the previous one. -/
def applyGuardrails (s : SessState) (u : String) (a : Action) : Action :=
  guard4 s (guard3 s (guard2 s (guard1 s u a)))

/-- Python truthiness of the optional payload dict: `None` and `{}` are
falsy. -/
def payloadTruthy : Option (List (String × String)) → Bool
  | some (_ :: _) => true
  | _ => false

/-- Loop-detection messages (runner lines 258, 297, 306; the source wraps
the interpolated values in quote characters, elided here). -/
def fillLoopMsg (a : Action) : String :=
  "Loop detected: Agents attempted to repeat action " ++ a.type ++ " -> " ++
    a.target ++ " with same payload immediately."

def clickLoopMsg (a : Action) (n : Nat) : String :=
  "Loop detected: Agents clicked " ++ a.target ++ " " ++ toString (n + 1) ++
    " times in a row."

def otherLoopMsg (a : Action) : String :=
  "Loop detected: Agents attempted to repeat action " ++ a.type ++ " -> " ++
    a.target ++ " immediately."

/-- The loop detector of `run_multi_agent_session` (lines 233-329), as a
function of the action history and the guardrailed consensus action.
`none` means the action is allowed; `some msg` means the session is aborted
with the given loop-detected message.  Mirrors the source precisely:
a repeat of a failed action is allowed; a repeated fill with a truthy
payload is allowed when the payload value differs, otherwise aborted when
the last three history entries show no variation; a repeated click after a
success is allowed unless the same target was clicked at least twice within
the last three entries; any other exact repeat aborts. -/
def loopCheck (hist : List HistEntry) (a : Action) : Option String :=
  match hist.getLast? with
  | none => none
  | some last =>
    let is_same := a.type == last.type && a.target == last.target
    if is_same && !last.success then none
    else if is_same then
      if a.type == "fill" && payloadTruthy a.payload then
        let last_val := lookupD last.payload "value"
        let cur_val :=
          match a.payload with
          | some p => lookupD p "value"
          | none => ""
        if last_val ≠ cur_val then none
        else
          let recent := lastN 3 hist
          if ((recent.map (fun e => (e.type, e.target))).dedup).length ≤ 1 then
            some (fillLoopMsg a)
          else none
      else
        if a.type == "click" && last.success then
          let n := ((lastN 3 hist).filter
            (fun e => e.type == "click" && e.target == a.target)).length
          if 2 ≤ n then some (clickLoopMsg a n) else none
        else some (otherLoopMsg a)
    else none

/-- `action_succeeded` (runner line 400): no error marker occurs in the new
observation. -/
def anyErrSub (obs : String) : Bool :=
  strIn "ERROR" obs || strIn "CLICK_ERROR" obs || strIn "FILL_ERROR" obs ||
    strIn "NAVIGATE_ERROR" obs

/-- `failed_selectors[selector] = failed_selectors.get(selector, 0) + 1`. -/
def bumpFailedSelector (fs : List (String × Nat)) (sel : String) :
    List (String × Nat) :=
  if sel ∈ fs.map Prod.fst then
    fs.map (fun e => (e.1, if e.1 = sel then e.2 + 1 else e.2))
  else fs ++ [(sel, 1)]

/-- State update after a non-raising execution (runner lines 397-447): flag
updates happen only when the action succeeded, the guardrail flags are
driven by the executed action and the page URLs, failed click selectors are
counted, the action is appended to the history and the history is trimmed to
its last five entries. -/
def updateAfterExec (s : SessState) (a : Action) (turn : Nat) (obs : String)
    (current_url post_url : String) : SessState :=
  let action_succeeded := !anyErrSub obs
  let payload := match a.payload with | some p => p | none => []
  let s1 :=
    if action_succeeded then
      let sa :=
        if a.type == "click" && strIn "add-to-cart" a.target then
          { s with
            search_add_done := s.search_add_done || strIn "/search" current_url,
            filtered_add_done :=
              s.filtered_add_done || (s.min_filled && s.max_filled) }
        else s
      let sb :=
        if a.type == "fill" && a.target == "#minPrice" then
          { sa with min_filled := true }
        else sa
      let sc :=
        if a.type == "fill" && a.target == "#maxPrice" then
          { sb with max_filled := true }
        else sb
      if strIn "/cart" post_url then { sc with cart_visited := true } else sc
    else s
  let s2 :=
    if !action_succeeded && a.type == "click" then
      { s1 with failed_selectors := bumpFailedSelector s1.failed_selectors a.target }
    else s1
  let h := s2.action_history ++ [⟨a.type, a.target, payload, turn, action_succeeded⟩]
  { s2 with action_history := if 5 < h.length then h.tail else h }

/-- `log_turn` record for a loop-detection abort (runner lines 262-278;
`success=False`, zero latency, `safety_pass=True` literal in the call). -/
def loopLogEntry (turn : Nat) (a : Action) (msg : String) : LogEntry :=
  ⟨turn, a.type, a.target, false, 0, true, ["loop_detected:" ++ msg]⟩

/-- `log_turn` record for a validation failure (runner lines 346-362). -/
def valFailLogEntry (turn : Nat) (a : Action) (reasons : List String)
    (safety_pass : Bool) : LogEntry :=
  ⟨turn, a.type, a.target, false, 0, safety_pass, reasons⟩

/-- `log_turn` record for an execution exception (runner lines 463-476; the
exception text appended after the prefix is external data). -/
def execErrLogEntry (turn : Nat) (a : Action) (safety_pass : Bool) : LogEntry :=
  ⟨turn, a.type, a.target, false, 0, safety_pass, ["execution_error:"]⟩

/-- `log_turn` record for an executed turn (runner lines 379-395; note the
source always logs `success=True` here). -/
def okLogEntry (turn : Nat) (a : Action) (latency : ℚ) (safety_pass : Bool) :
    LogEntry :=
  ⟨turn, a.type, a.target, true, latency, safety_pass, ["ok"]⟩

/-- The `cart_visited` refresh at the top of each turn (runner lines
100-101). -/
def cartUpd (s : SessState) (u : String) : SessState :=
  if strIn "/cart" u then { s with cart_visited := true } else s

/-- Outcome of one loop iteration: `halt` ends the session (with the log
records of this turn and the final `success` flag), `next` carries the
log record of the turn and the updated state into the next turn. -/
inductive TurnOutcome where
  | halt (log : List LogEntry) (success : Bool)
  | next (log : LogEntry) (s2 : SessState)
deriving DecidableEq, Repr

/-- One iteration of the main loop of `run_multi_agent_session` (lines
87-478), in source order: update `cart_visited` from the current URL; ask
the committee (an exception halts with no record); apply the guardrails;
run the loop detector (an abort is logged and halts); validate (a failure
is logged and halts); execute (an exception is logged and halts); log the
turn, and either halt successfully on a report action or continue with the
updated state.  (On a report the source still updates its local state
before breaking; the state is discarded, so the update is omitted.) -/
def turnStep (checkSafety : Action → List String) (persona : Persona)
    (is_security_test : Bool) (s : SessState) (turn : Nat) (i : TurnInput) :
    TurnOutcome :=
  let s0 := cartUpd s i.current_url
  match i.committee with
  | none => .halt [] false
  | some a0 =>
    let a := applyGuardrails s0 i.current_url a0
    match loopCheck s0.action_history a with
    | some msg => .halt [loopLogEntry turn a msg] false
    | none =>
      let v := validate_action checkSafety a persona is_security_test
      let safety_pass := v.2.2.isEmpty
      if !v.1 then .halt [valFailLogEntry turn a v.2.1 safety_pass] false
      else
        match i.execResult with
        | none => .halt [execErrLogEntry turn a safety_pass] false
        | some (obs, latency) =>
          let e := okLogEntry turn a latency safety_pass
          if a.type == "report" then .halt [e] true
          else .next e (updateAfterExec s0 a turn obs i.current_url i.post_url)

/-- The turn loop: `turn` is the 1-based index of the next turn, the fuel is
the number of remaining turns.  Returns the log records, the final `success`
flag and `turns_executed`. -/
def runLoop (checkSafety : Action → List String) (persona : Persona)
    (is_security_test : Bool) (O : Nat → TurnInput) :
    SessState → Nat → Nat → List LogEntry × Bool × Nat
  | _, turn, 0 => ([], true, turn - 1)
  | s, turn, Nat.succ r =>
    match turnStep checkSafety persona is_security_test s turn (O turn) with
    | .halt logs suc => (logs, suc, turn)
    | .next e s2 =>
      let rest := runLoop checkSafety persona is_security_test O s2 (turn + 1) r
      (e :: rest.1, rest.2.1, rest.2.2)

/-- `app/multi_agent_runner.py::run_multi_agent_session`, over the external
events `O` and the `max_turns` value of the scenario. -/
def run_multi_agent_session (checkSafety : Action → List String)
    (persona : Persona) (is_security_test : Bool) (O : Nat → TurnInput)
    (max_turns : Nat) : List LogEntry × Bool × Nat :=
  runLoop checkSafety persona is_security_test O initState 1 max_turns

/-- The final session status string (runner line 485). -/
def sessionStatus (success : Bool) : String :=
  if success then "completed" else "failed"

lemma snd_mem_of_mem_enumFrom {α : Type} :
    ∀ (l : List α) (n : Nat) (e : Nat × α), e ∈ List.enumFrom n l → e.2 ∈ l := by
  intro l
  induction l with
  | nil => intro n e he; simp [List.enumFrom] at he
  | cons x xs ih =>
    intro n e he
    rw [List.enumFrom] at he
    rcases List.mem_cons.mp he with rfl | he'
    · exact List.mem_cons_self x xs
    · exact List.mem_cons_of_mem x (ih (n + 1) e he')

/-- C2 counterexample: the claim says that when every proposer fails in
Round 1 the committee surfaces an explicit error.  It does not: round 2 is
still attempted, and with all four round-1 sources failing but one agent
answering in round 2, `decide` returns an ordinary consensus (at confidence
0.9, no error of any kind). -/
theorem c2_counterexample :
    decide [none, none, none, none]
        [some ⟨"click", "#a", none⟩, none, none, none] =
      .ok (⟨"click", "#a", none⟩,
        [⟨1, ⟨"click", "#a", none⟩, 0.9,
          "Agent 1 refined after discussion (confirmed original)"⟩],
        [("agent_1", 0.9), ("consensus_strength", 0.9)]) := by
  simp [decide, round1_independent, round2_discussion, round3_consensus,
    groupScores, groupProps, addVote, sumConf, voteKey, argmaxFirst, confScores,
    List.enum, List.enumFrom]
  decide

/-- C2 (amended): no `ProposerPoolExhausted` type exists.  A Round-1 total
failure alone raises nothing (see the counterexample); only when Round 2
also returns no proposals does the consensus step raise (the generic
empty-sequence error of `max`), and the orchestrator then catches the
committee exception, records no turn, and ends the session as failed with
`turns_executed = 1`. -/
theorem c2_proposer_pool_amended :
    (∀ r1 r2 : List (Option Action), (∀ x ∈ r2, x = none) →
      decide r1 r2 = .error "max() arg is an empty sequence") ∧
    (∀ (chk : Action → List String) (p : Persona) (sec : Bool)
        (O : Nat → TurnInput) (f : Nat), (O 1).committee = none →
      run_multi_agent_session chk p sec O (f + 1) = ([], false, 1) ∧
      sessionStatus false = "failed") := by
  constructor
  · intro r1 r2 h
    have h2 : round2_discussion r2 (round1_independent r1) = [] := by
      unfold round2_discussion
      rw [List.filterMap_eq_nil_iff]
      intro e he
      have hmem : e.2 ∈ r2 := snd_mem_of_mem_enumFrom r2 0 e he
      rw [h e.2 hmem]
      rfl
    simp [decide, h2, round3_consensus, groupScores, groupProps, argmaxFirst]
  · intro chk p sec O f h
    constructor
    · unfold run_multi_agent_session runLoop
      simp [turnStep, h]
    · rfl

/-- Witness for `c2_proposer_pool_amended`: both parts at concrete inputs
(four sources that all fail in both rounds; a session whose first committee
call raises). -/
theorem c2_proposer_pool_amended_witness :
    decide [none, none, none, none] [none, none, none, none] =
      .error "max() arg is an empty sequence" ∧
    run_multi_agent_session (fun _ => []) ⟨"tester", []⟩ false
        (fun _ => ⟨"/", none, none, "/"⟩) 1 = ([], false, 1) :=
  ⟨c2_proposer_pool_amended.1 [none, none, none, none] [none, none, none, none]
      (by intro x hx; simp at hx; exact hx),
    (c2_proposer_pool_amended.2 (fun _ => []) ⟨"tester", []⟩ false
      (fun _ => ⟨"/", none, none, "/"⟩) 0 rfl).1⟩

/-- C7: when validation of the (guardrailed) consensus action fails on turn
N, that turn is logged with `success = false` and a non-empty validator
reason list, the loop halts immediately (the records from turn N on are
exactly this one entry, whatever state turn N started in and whatever the
oracles would supply later), `turns_executed = N`, and the session status is
failed.  Records of earlier turns are unaffected: the loop only ever appends
the record of the current turn in front of the remainder. -/
theorem c7_validation_failure_halts (chk : Action → List String) (p : Persona)
    (sec : Bool) (O : Nat → TurnInput) (s : SessState) (n f : Nat) (a0 : Action)
    (hc : (O n).committee = some a0)
    (hl : loopCheck (cartUpd s (O n).current_url).action_history
        (applyGuardrails (cartUpd s (O n).current_url) (O n).current_url a0) =
        none)
    (hv : (validate_action chk
        (applyGuardrails (cartUpd s (O n).current_url) (O n).current_url a0)
        p sec).1 = false) :
    (validate_action chk
        (applyGuardrails (cartUpd s (O n).current_url) (O n).current_url a0)
        p sec).2.1 ≠ [] ∧
    runLoop chk p sec O s n (f + 1) =
      ([valFailLogEntry n
          (applyGuardrails (cartUpd s (O n).current_url) (O n).current_url a0)
          (validate_action chk
            (applyGuardrails (cartUpd s (O n).current_url) (O n).current_url a0)
            p sec).2.1
          (validate_action chk
            (applyGuardrails (cartUpd s (O n).current_url) (O n).current_url a0)
            p sec).2.2.isEmpty],
        false, n) ∧
    sessionStatus false = "failed" := by
  set a := applyGuardrails (cartUpd s (O n).current_url) (O n).current_url a0
    with ha
  refine ⟨?_, ?_, rfl⟩
  · intro h0
    have h1 : (validate_action chk a p sec).1 =
        ((validate_action chk a p sec).2.1).isEmpty := rfl
    rw [h0] at h1
    rw [hv] at h1
    simp at h1
  · unfold runLoop
    simp only [turnStep, hc, ← ha, hl, hv]
    rfl

/-- Witness for `c7_validation_failure_halts`: a first-turn consensus of a
click with an empty target fails validation with `missing_target`; the
session halts at turn 1 with exactly that one failed record. -/
theorem c7_validation_failure_halts_witness :
    (validate_action (fun _ => [])
        (applyGuardrails
          (cartUpd initState
            ((fun _ => (⟨"/", some ⟨"click", "", none⟩, some ("ok", 0), "/"⟩ :
              TurnInput)) 1).current_url)
          ((fun _ => (⟨"/", some ⟨"click", "", none⟩, some ("ok", 0), "/"⟩ :
            TurnInput)) 1).current_url ⟨"click", "", none⟩)
        ⟨"tester", []⟩ false).2.1 ≠ [] ∧
    runLoop (fun _ => []) ⟨"tester", []⟩ false
        (fun _ => ⟨"/", some ⟨"click", "", none⟩, some ("ok", 0), "/"⟩)
        initState 1 (0 + 1) =
      ([valFailLogEntry 1
          (applyGuardrails
            (cartUpd initState
              ((fun _ => (⟨"/", some ⟨"click", "", none⟩, some ("ok", 0), "/"⟩ :
                TurnInput)) 1).current_url)
            ((fun _ => (⟨"/", some ⟨"click", "", none⟩, some ("ok", 0), "/"⟩ :
              TurnInput)) 1).current_url ⟨"click", "", none⟩)
          (validate_action (fun _ => [])
            (applyGuardrails
              (cartUpd initState
                ((fun _ => (⟨"/", some ⟨"click", "", none⟩, some ("ok", 0), "/"⟩ :
                  TurnInput)) 1).current_url)
              ((fun _ => (⟨"/", some ⟨"click", "", none⟩, some ("ok", 0), "/"⟩ :
                TurnInput)) 1).current_url ⟨"click", "", none⟩)
            ⟨"tester", []⟩ false).2.1
          (validate_action (fun _ => [])
            (applyGuardrails
              (cartUpd initState
                ((fun _ => (⟨"/", some ⟨"click", "", none⟩, some ("ok", 0), "/"⟩ :
                  TurnInput)) 1).current_url)
              ((fun _ => (⟨"/", some ⟨"click", "", none⟩, some ("ok", 0), "/"⟩ :
                TurnInput)) 1).current_url ⟨"click", "", none⟩)
            ⟨"tester", []⟩ false).2.2.isEmpty],
        false, 1) ∧
    sessionStatus false = "failed" :=
  c7_validation_failure_halts (fun _ => []) ⟨"tester", []⟩ false
    (fun _ => ⟨"/", some ⟨"click", "", none⟩, some ("ok", 0), "/"⟩)
    initState 1 0 ⟨"click", "", none⟩ rfl (by decide) (by decide)

lemma lastN3_append_two (l : List HistEntry) (e1 e2 : HistEntry) :
    ∃ pre, lastN 3 (l ++ [e1, e2]) = pre ++ [e1, e2] := by
  unfold lastN
  have hlen : (l ++ [e1, e2]).length - 3 ≤ l.length := by
    simp
  refine ⟨l.drop ((l ++ [e1, e2]).length - 3), ?_⟩
  rw [List.drop_append_of_le_length hlen]

/-- C4 counterexample: both halves of the claim fail on the code.  First, a
click identical to the two immediately preceding actions is NOT always
rejected: with history click #x (succeeded) then click #x (failed), a third
identical click #x is allowed, because the failed-action retry exception
fires before the three-in-a-row check.  Second, a single immediate repeat is
NOT always allowed: with history click #x, fill #y, click #x (all
succeeded), the candidate click #x repeats only the one preceding action,
yet the detector rejects it, because two clicks on #x sit in the
three-action window. -/
theorem c4_counterexample :
    loopCheck [⟨"click", "#x", [], 1, true⟩, ⟨"click", "#x", [], 2, false⟩]
        ⟨"click", "#x", none⟩ = none ∧
    loopCheck [⟨"click", "#x", [], 1, true⟩, ⟨"fill", "#y", [], 2, true⟩,
        ⟨"click", "#x", [], 3, true⟩] ⟨"click", "#x", none⟩ =
      some (clickLoopMsg ⟨"click", "#x", none⟩ 2) := by
  exact ⟨by decide, by decide⟩

/-- C4 (amended): for a candidate click equal to the last recorded action,
(i) the detector allows it when the last attempt failed, or when at most one
of the last three recorded actions is a click on the same target; (ii) it
aborts whenever the last attempt succeeded and at least two of the last
three recorded actions are clicks on the same target — whether or not those
two clicks are adjacent; (iii) in particular it aborts whenever the two
immediately preceding actions are clicks on the same target and the last one
succeeded; and (iv) an abort verdict halts the session at that turn with a
single loop-detected record, status failed. -/
theorem c4_click_loop_amended :
    (∀ (h : List HistEntry) (e : HistEntry) (c : Action),
      c.type = "click" → e.type = "click" → e.target = c.target →
      (e.success = false ∨
        ((lastN 3 (h ++ [e])).filter
          (fun x => x.type == "click" && x.target == c.target)).length ≤ 1) →
      loopCheck (h ++ [e]) c = none) ∧
    (∀ (h : List HistEntry) (e : HistEntry) (c : Action),
      c.type = "click" → e.type = "click" → e.target = c.target →
      e.success = true →
      2 ≤ ((lastN 3 (h ++ [e])).filter
        (fun x => x.type == "click" && x.target == c.target)).length →
      ∃ msg, loopCheck (h ++ [e]) c = some msg) ∧
    (∀ (h : List HistEntry) (e1 e2 : HistEntry) (c : Action),
      c.type = "click" → e1.type = "click" → e2.type = "click" →
      e1.target = c.target → e2.target = c.target → e2.success = true →
      ∃ msg, loopCheck (h ++ [e1, e2]) c = some msg) ∧
    (∀ (chk : Action → List String) (p : Persona) (sec : Bool)
        (O : Nat → TurnInput) (s : SessState) (n f : Nat) (a0 : Action)
        (msg : String),
      (O n).committee = some a0 →
      loopCheck (cartUpd s (O n).current_url).action_history
          (applyGuardrails (cartUpd s (O n).current_url) (O n).current_url a0) =
        some msg →
      runLoop chk p sec O s n (f + 1) =
        ([loopLogEntry n
            (applyGuardrails (cartUpd s (O n).current_url) (O n).current_url a0)
            msg], false, n) ∧
      sessionStatus false = "failed") := by
  refine ⟨?_, ?_, ?_, ?_⟩
  · intro h e c hc he ht hd
    have hsame : (c.type == e.type && c.target == e.target) = true := by
      simp [hc, he, ht]
    by_cases hs : e.success = true
    · rcases hd with hfail | hcount
      · simp [hs] at hfail
      · have hn : ¬(2 ≤ ((lastN 3 (h ++ [e])).filter
            (fun x => x.type == "click" && x.target == c.target)).length) := by
          omega
        simp [loopCheck, List.getLast?_concat, hsame, hs, hc, hn]
    · have hs' : e.success = false := by
        simpa using hs
      simp [loopCheck, List.getLast?_concat, hsame, hs']
  · intro h e c hc he ht hs hcnt
    have hsame : (c.type == e.type && c.target == e.target) = true := by
      simp [hc, he, ht]
    simp [loopCheck, List.getLast?_concat, hsame, hs, hc]
    exact ⟨⟨he.symm, ht.symm⟩, hcnt⟩
  · intro h e1 e2 c hc h1 h2 ht1 ht2 hs
    have hre : h ++ [e1, e2] = (h ++ [e1]) ++ [e2] := by simp
    have hsame : (c.type == e2.type && c.target == e2.target) = true := by
      simp [hc, h2, ht2]
    obtain ⟨pre, hpre⟩ := lastN3_append_two h e1 e2
    have hcnt : 2 ≤ ((lastN 3 (h ++ [e1, e2])).filter
        (fun x => x.type == "click" && x.target == c.target)).length := by
      rw [hpre, List.filter_append]
      have hp1 : (e1.type == "click" && e1.target == c.target) = true := by
        simp [h1, ht1]
      have hp2 : (e2.type == "click" && e2.target == c.target) = true := by
        simp [h2, ht2]
      rw [List.length_append]
      have : (List.filter (fun x => x.type == "click" && x.target == c.target)
          [e1, e2]).length = 2 := by
        simp [List.filter, hp1, hp2]
      omega
    rw [hre]
    simp [loopCheck, List.getLast?_concat, hsame, hs, hc]
    exact ⟨⟨h2.symm, ht2.symm⟩, hcnt⟩
  · intro chk p sec O s n f a0 msg hc hl
    refine ⟨?_, rfl⟩
    unfold runLoop
    simp only [turnStep, hc, hl]

/-- Witness for `c4_click_loop_amended`: part (i) on a single successful
click followed by a repeat, part (ii) on the non-adjacent window (click #x,
fill #y, click #x then candidate click #x), part (iii) on two successful
identical clicks, part (iv) on a session whose first-turn consensus is a
third identical click over such a history. -/
theorem c4_click_loop_amended_witness :
    loopCheck [⟨"click", "#x", [], 1, true⟩] ⟨"click", "#x", none⟩ = none ∧
    (∃ msg, loopCheck
      [⟨"click", "#x", [], 1, true⟩, ⟨"fill", "#y", [], 2, true⟩,
        ⟨"click", "#x", [], 3, true⟩]
      ⟨"click", "#x", none⟩ = some msg) ∧
    (∃ msg, loopCheck
      [⟨"click", "#x", [], 1, true⟩, ⟨"click", "#x", [], 2, true⟩]
      ⟨"click", "#x", none⟩ = some msg) ∧
    runLoop (fun _ => []) ⟨"tester", []⟩ false
        (fun _ => ⟨"/", some ⟨"click", "#x", none⟩, some ("ok", 0), "/"⟩)
        ⟨[⟨"click", "#x", [], 1, true⟩, ⟨"click", "#x", [], 2, true⟩], [],
          false, false, false, false, false⟩ 3 (0 + 1) =
      ([loopLogEntry 3
          (applyGuardrails
            (cartUpd
              ⟨[⟨"click", "#x", [], 1, true⟩, ⟨"click", "#x", [], 2, true⟩],
                [], false, false, false, false, false⟩
              ((fun _ => (⟨"/", some ⟨"click", "#x", none⟩, some ("ok", 0),
                "/"⟩ : TurnInput)) 3).current_url)
            ((fun _ => (⟨"/", some ⟨"click", "#x", none⟩, some ("ok", 0),
              "/"⟩ : TurnInput)) 3).current_url ⟨"click", "#x", none⟩)
          (clickLoopMsg ⟨"click", "#x", none⟩ 2)], false, 3) :=
  ⟨by
    have := c4_click_loop_amended.1 [] ⟨"click", "#x", [], 1, true⟩
      ⟨"click", "#x", none⟩ rfl rfl rfl (Or.inr (by decide))
    simpa using this,
   by
    have := c4_click_loop_amended.2.1
      [⟨"click", "#x", [], 1, true⟩, ⟨"fill", "#y", [], 2, true⟩]
      ⟨"click", "#x", [], 3, true⟩ ⟨"click", "#x", none⟩ rfl rfl rfl rfl
      (by decide)
    simpa using this,
   by
    have := c4_click_loop_amended.2.2.1 [] ⟨"click", "#x", [], 1, true⟩
      ⟨"click", "#x", [], 2, true⟩ ⟨"click", "#x", none⟩ rfl rfl rfl rfl rfl rfl
    simpa using this,
   (c4_click_loop_amended.2.2.2 (fun _ => []) ⟨"tester", []⟩ false
      (fun _ => ⟨"/", some ⟨"click", "#x", none⟩, some ("ok", 0), "/"⟩)
      ⟨[⟨"click", "#x", [], 1, true⟩, ⟨"click", "#x", [], 2, true⟩], [],
        false, false, false, false, false⟩ 3 0 ⟨"click", "#x", none⟩
      (clickLoopMsg ⟨"click", "#x", none⟩ 2) rfl (by decide)).1⟩

/-- C8: a repeated fill on the same target whose payload carries a value
different from the recorded value of the previous attempt is always allowed by
the loop detector, for every history ending in such a fill. -/
theorem c8_fill_different_value_allowed (h : List HistEntry) (e : HistEntry)
    (c : Action) (pl : List (String × String)) (v : String)
    (he : e.type = "fill") (hc : c.type = "fill") (ht : e.target = c.target)
    (hp : c.payload = some pl) (hv : pl.lookup "value" = some v)
    (hne : v ≠ lookupD e.payload "value") :
    loopCheck (h ++ [e]) c = none := by
  have hsame : (c.type == e.type && c.target == e.target) = true := by
    simp [hc, he, ht]
  by_cases hs : e.success = true
  · have hpl : pl ≠ [] := by
      intro h0
      rw [h0] at hv
      simp [List.lookup] at hv
    have htruthy : payloadTruthy c.payload = true := by
      rw [hp]
      cases pl with
      | nil => exact absurd rfl hpl
      | cons x xs => rfl
    have hcur : lookupD pl "value" = v := by
      simp [lookupD, hv]
    have hdiff : lookupD e.payload "value" ≠
        match c.payload with
        | some p => lookupD p "value"
        | none => "" := by
      rw [hp]
      simpa [hcur] using fun hx => hne hx.symm
    simp [loopCheck, List.getLast?_concat, hsame, hs, hc, htruthy, hdiff]
  · have hs' : e.success = false := by simpa using hs
    simp [loopCheck, List.getLast?_concat, hsame, hs']

/-- Witness for `c8_fill_different_value_allowed`: fill #y with value b
immediately after a successful fill #y with value a is allowed. -/
theorem c8_fill_different_value_allowed_witness :
    loopCheck ([] ++ [⟨"fill", "#y", [("value", "a")], 1, true⟩])
      ⟨"fill", "#y", some [("value", "b")]⟩ = none :=
  c8_fill_different_value_allowed [] ⟨"fill", "#y", [("value", "a")], 1, true⟩
    ⟨"fill", "#y", some [("value", "b")]⟩ [("value", "b")] "b"
    rfl rfl rfl rfl rfl (by decide)

/-- C6 counterexample: the claim says that once `search_add_done` is set,
an add-to-cart consensus from the search view is rewritten into navigate to
/products before execution.  In the reachable state where the filtered add
has also happened and the cart has not yet been visited, guardrail 4 runs
after guardrail 1 and the action that reaches execution is click .go-to-cart
instead. -/
theorem c6_counterexample :
    applyGuardrails ⟨[], [], true, true, true, true, false⟩ "/search"
        ⟨"click", ".add-to-cart", none⟩ = clickGoToCart ∧
    clickGoToCart ≠ ⟨"navigate", "/products", none⟩ := by
  exact ⟨by decide, by decide⟩

/-- C6 (amended): once `search_add_done` is set, an action from the search
view whose target mentions add-to-cart is rewritten by guardrail 1 into
navigate to /products; the full pipeline delivers navigate /products unless
the filtered-add guardrail is armed (filtered add done, cart not yet
visited), in which case it delivers click .go-to-cart; in every case the
target of the executed action no longer mentions add-to-cart (it is never
executed as-is). -/
theorem c6_terminal_add_amended (s : SessState) (u : String) (a : Action)
    (hs : s.search_add_done = true) (hu : strIn "/search" u = true)
    (ha : strIn "add-to-cart" a.target = true) :
    guard1 s u a = ⟨"navigate", "/products", none⟩ ∧
    (applyGuardrails s u a = ⟨"navigate", "/products", none⟩ ∨
      applyGuardrails s u a = clickGoToCart) ∧
    ((s.filtered_add_done = false ∨ s.cart_visited = true) →
      applyGuardrails s u a = ⟨"navigate", "/products", none⟩) ∧
    strIn "add-to-cart" (applyGuardrails s u a).target = false := by
  have h1 : guard1 s u a = ⟨"navigate", "/products", none⟩ := by
    simp [guard1, hs, hu, ha]
  have h2 : guard2 s ⟨"navigate", "/products", none⟩ =
      ⟨"navigate", "/products", none⟩ := by
    unfold guard2
    split <;> rfl
  have h3 : guard3 s ⟨"navigate", "/products", none⟩ =
      ⟨"navigate", "/products", none⟩ := by
    simp [guard3]
  have h4 : applyGuardrails s u a = guard4 s ⟨"navigate", "/products", none⟩ := by
    unfold applyGuardrails
    rw [h1, h2, h3]
  by_cases hf : s.filtered_add_done = true ∧ s.cart_visited = false
  · have h5 : guard4 s ⟨"navigate", "/products", none⟩ = clickGoToCart := by
      simp [guard4, hf.1, hf.2]
    refine ⟨h1, Or.inr (by rw [h4, h5]), ?_, by rw [h4, h5]; decide⟩
    intro hcase
    rcases hcase with h' | h'
    · rw [hf.1] at h'
      simp at h'
    · rw [hf.2] at h'
      simp at h'
  · have hcond : (s.filtered_add_done && !s.cart_visited) = false := by
      rcases not_and_or.mp hf with h' | h'
      · have : s.filtered_add_done = false := by simpa using h'
        simp [this]
      · have : s.cart_visited = true := by simpa using h'
        simp [this]
    have h5 : guard4 s ⟨"navigate", "/products", none⟩ =
        ⟨"navigate", "/products", none⟩ := by
      simp [guard4, hcond]
    exact ⟨h1, Or.inl (by rw [h4, h5]), fun _ => by rw [h4, h5],
      by rw [h4, h5]; decide⟩

/-- Witness for `c6_terminal_add_amended`: the state right after a search
add (no filters, no filtered add), on the search view. -/
theorem c6_terminal_add_amended_witness :
    guard1 ⟨[], [], true, false, false, false, false⟩ "/search"
        ⟨"click", ".add-to-cart", none⟩ = ⟨"navigate", "/products", none⟩ ∧
    (applyGuardrails ⟨[], [], true, false, false, false, false⟩ "/search"
        ⟨"click", ".add-to-cart", none⟩ = ⟨"navigate", "/products", none⟩ ∨
      applyGuardrails ⟨[], [], true, false, false, false, false⟩ "/search"
        ⟨"click", ".add-to-cart", none⟩ = clickGoToCart) ∧
    (((⟨[], [], true, false, false, false, false⟩ : SessState).filtered_add_done
        = false ∨
      (⟨[], [], true, false, false, false, false⟩ : SessState).cart_visited
        = true) →
      applyGuardrails ⟨[], [], true, false, false, false, false⟩ "/search"
        ⟨"click", ".add-to-cart", none⟩ = ⟨"navigate", "/products", none⟩) ∧
    strIn "add-to-cart"
      (applyGuardrails ⟨[], [], true, false, false, false, false⟩ "/search"
        ⟨"click", ".add-to-cart", none⟩).target = false :=
  c6_terminal_add_amended ⟨[], [], true, false, false, false, false⟩ "/search"
    ⟨"click", ".add-to-cart", none⟩ rfl (by decide) (by decide)

end BetaTest
